import Mathlib

/-!
Shallow embedding of the retrieval-and-conversation pipeline of the
AI-humanoid-robotics backend (src/backend/src), covering:

* `IngestionService.chunk_content`  (services/ingestion.py)
* `VectorDB.create_collection`, `VectorDB.add_embeddings`,
  `VectorDB.search_similar`        (core/vector_db.py)
* `RetrievalService.retrieve_context`,
  `RetrievalService.find_related_sections`,
  `RetrievalService.retrieve_context_with_conversation_history`
                                    (services/retrieval.py)
* the session-update step of the chat endpoint (api/v1/chat.py)
* `StorageService.get_session_history` (services/storage.py)

Python strings are modelled as `List Char`; Python dict payloads (whose
values relevant to the verified properties are all strings) as association
lists `List (String × String)`; fallible operations as `Except String`.
External providers (Qdrant client, embedding provider, PostgreSQL) are
modelled by their documented behavior at the call sites: the Qdrant store
as a list of points with upsert-by-id semantics, the SQL query of
`get_session_history` by left-join/order-by semantics over row lists, and
the embedding provider as an oracle parameter that may fail.
-/

namespace RAG

/-! ### Text model: Python str as List Char -/

abbrev Text := List Char

/-- Python `str.strip()` (whitespace trimmed from both ends). -/
def trimText (l : Text) : Text :=
  ((l.dropWhile Char.isWhitespace).reverse.dropWhile Char.isWhitespace).reverse

/-- Last `n` characters, Python `s[-n:]` (whole string when `n ≥ len`). -/
def takeRightText (n : Nat) (l : Text) : Text := l.drop (l.length - n)

/-- Nonempty and starting with a non-whitespace character (the condition
under which a Python `.strip()` leaves the front of a string intact). -/
def startsNonWS : Text → Bool
  | [] => false
  | c :: _ => !c.isWhitespace

/-- Terminal punctuation of the sentence splitter regex `[.!?]`. -/
def isTerminalPunct (c : Char) : Bool := c = '.' || c = '!' || c = '?'

/-- Whether the accumulated (reversed) sentence ends with terminal punctuation. -/
def headTerminal : Text → Bool
  | [] => false
  | c :: _ => isTerminalPunct c

/-- Worker for `re.split(r'(?<=[.!?]) +', content)`: the accumulator holds the
current sentence reversed; the flag records that we are consuming the run of
spaces that follows a split point. -/
def splitSentencesAux : Text → Text → Bool → List Text
  | [], acc, _ => [acc.reverse]
  | c :: rest, acc, true =>
    if c = ' ' then splitSentencesAux rest acc true
    else splitSentencesAux rest [c] false
  | c :: rest, acc, false =>
    if c = ' ' && headTerminal acc then acc.reverse :: splitSentencesAux rest [] true
    else splitSentencesAux rest (c :: acc) false

/-- `re.split(r'(?<=[.!?]) +', content)` from `chunk_content`. -/
def splitSentences (content : Text) : List Text := splitSentencesAux content [] false

/-- Python `sentence.split()`: split on whitespace runs, dropping empties. -/
def wordsOf : Text → List Text :=
  fun s => go s []
where
  go : Text → Text → List Text
    | [], acc => if acc.isEmpty then [] else [acc.reverse]
    | c :: rest, acc =>
      if c.isWhitespace then
        if acc.isEmpty then go rest [] else acc.reverse :: go rest []
      else go rest (c :: acc)

/-- The inner word loop of `chunk_content` (the `len(sentence) > chunk_size`
branch): greedily packs words into `temp_chunk`; note that when `temp_chunk`
is empty and the word does not fit, the source performs no assignment and the
word is dropped. Returns the chunks it appends, including the final
`temp_chunk` flush. -/
def wordLoop (chunkSize : Nat) : List Text → Text → List Text
  | [], temp => if temp.isEmpty then [] else [trimText temp]
  | w :: ws, temp =>
    if temp.length + 1 + w.length ≤ chunkSize then
      wordLoop chunkSize ws (if temp.isEmpty then w else temp ++ ' ' :: w)
    else
      if temp.isEmpty then wordLoop chunkSize ws temp
      else trimText temp :: wordLoop chunkSize ws w

/-- The outer sentence loop of `chunk_content`, including the final
`if current_chunk: chunks.append(current_chunk.strip())`. Faithful detail:
in the long-sentence branch the source never resets `current_chunk`, so the
already-flushed text survives into the next iteration. -/
def sentenceLoop (chunkSize : Nat) : List Text → Text → List Text
  | [], current => if current.isEmpty then [] else [trimText current]
  | s :: ss, current =>
    if current.length + 1 + s.length ≤ chunkSize then
      sentenceLoop chunkSize ss (if current.isEmpty then s else current ++ ' ' :: s)
    else
      (if current.isEmpty then [] else [trimText current]) ++
        (if chunkSize < s.length then
          wordLoop chunkSize (wordsOf s) [] ++ sentenceLoop chunkSize ss current
        else
          sentenceLoop chunkSize ss s)

/-- The chunk list of `chunk_content` before the overlap pass. -/
def preChunks (content : Text) (chunkSize : Nat) : List Text :=
  sentenceLoop chunkSize (splitSentences content) []

/-- The overlap pass body: for every chunk except the first,
`(chunks[i-1][-overlap:] + " " + chunk).strip()`. `prev` is the previous
chunk of the pre-overlap list. -/
def overlappedGo (overlap : Nat) : Text → List Text → List Text
  | _, [] => []
  | prev, c :: cs =>
    trimText (takeRightText overlap prev ++ ' ' :: c) :: overlappedGo overlap c cs

/-- The overlap pass of `chunk_content`. -/
def overlapped (overlap : Nat) : List Text → List Text
  | [] => []
  | c :: cs => c :: overlappedGo overlap c cs

/-- `IngestionService.chunk_content(content, chunk_size, overlap)`
(services/ingestion.py, lines 70-123). -/
def chunk_content (content : Text) (chunkSize : Nat := 1000) (overlap : Nat := 100) :
    List Text :=
  let chunks := preChunks content chunkSize
  if 0 < overlap ∧ 1 < chunks.length then overlapped overlap chunks else chunks

/-! ### Vector store model (core/vector_db.py)

Payload dicts are modelled as association lists of string key/value pairs
(every payload field the verified properties touch is a string); the Qdrant
collection as a list of points, with the documented upsert-by-point-id
semantics of `client.upsert`. -/

abbrev Payload := List (String × String)

/-- Python `payload.get(key, default)`. -/
def pget (p : Payload) (key d : String) : String :=
  match p.find? (fun kv => kv.1 == key) with
  | some kv => kv.2
  | none => d

/-- Python `payload[key] = v` on a dict: replace the binding if the key is
present, otherwise append it. -/
def pset : Payload → String → String → Payload
  | [], key, v => [(key, v)]
  | kv :: rest, key, v =>
    if kv.1 == key then (key, v) :: pset rest key v else kv :: pset rest key v

/-- A point stored in the Qdrant collection (`models.PointStruct`). -/
structure QPoint where
  id : Nat
  vector : List Int
  payload : Payload
deriving DecidableEq

/-- `payload_with_original_id`: copy of the payload with
`original_content_id` set to the caller-supplied content id
(vector_db.py lines 57-58). -/
def payloadWithOriginalId (payload : Payload) (content_id : String) : Payload :=
  pset payload "original_content_id" content_id

/-- The point batch built by `add_embeddings`:
`for i, (content_id, embedding, payload) in enumerate(zip(...))`, with
`point_id = i` offset by the start index `i₀` (the call uses `i₀ = 0`). -/
def buildPointsAux : Nat → List String → List (List Int) → List Payload → List QPoint
  | _, [], _, _ => []
  | _, _ :: _, [], _ => []
  | _, _ :: _, _ :: _, [] => []
  | i, c :: cs, e :: es, p :: ps =>
    ⟨i, e, payloadWithOriginalId p c⟩ :: buildPointsAux (i + 1) cs es ps

def buildPoints (content_ids : List String) (embeddings : List (List Int))
    (payloads : List Payload) : List QPoint :=
  buildPointsAux 0 content_ids embeddings payloads

/-- Qdrant `client.upsert` semantics for one point: replace the point with
the same native id if present, otherwise insert. -/
def upsertPoint (store : List QPoint) (p : QPoint) : List QPoint :=
  if store.any (fun q => q.id == p.id) then
    store.map (fun q => if q.id == p.id then p else q)
  else store ++ [p]

/-- `VectorDB.add_embeddings` (vector_db.py lines 45-74): build the numbered
point batch and upsert it into the collection. -/
def add_embeddings (store : List QPoint) (content_ids : List String)
    (embeddings : List (List Int)) (payloads : List Payload) : List QPoint :=
  (buildPoints content_ids embeddings payloads).foldl upsertPoint store

/-- The point the store holds under a native id. -/
def findPoint (store : List QPoint) (i : Nat) : Option QPoint :=
  store.find? (fun q => q.id == i)

/-- A raw hit returned by the Qdrant client (`hit.id`, `hit.payload`,
`hit.score`). -/
structure SearchHit where
  id : Nat
  payload : Payload
  score : Int
deriving DecidableEq

/-- A result dict produced by `search_similar`. -/
structure SearchResult where
  id : String
  payload : Payload
  score : Int
deriving DecidableEq

/-- The per-hit mapping of `search_similar` (vector_db.py lines 90-97):
`content_id = hit.payload.get('original_content_id', str(hit.id))`. -/
def processHit (h : SearchHit) : SearchResult :=
  { id := pget h.payload "original_content_id" (toString h.id)
    payload := h.payload
    score := h.score }

/-- `VectorDB.search_similar`, given the raw hits the client returned (both
the `query_points` and the `search` call forms map hits identically). -/
def search_similar (hits : List SearchHit) : List SearchResult :=
  hits.map processHit

/-- `VectorDB.create_collection` (vector_db.py lines 23-43). The existing
collections are modelled as (name, vector dimension) pairs; the Qdrant
`create_collection` client call appends a collection of the requested size.
The result is `Except` because the spec asserts a configuration error is
raised on a dimension mismatch; the source raises only when a client call
itself fails. -/
def create_collection (collections : List (String × Nat)) (collection_name : String)
    (vector_size : Nat) : Except String (List (String × Nat)) :=
  if (collections.map Prod.fst).contains collection_name then
    Except.ok collections
  else
    Except.ok (collections ++ [(collection_name, vector_size)])

/-! ### Retrieval service model (services/retrieval.py)

The embedding provider and the vector-db adapter are the service's external
collaborators; they are modelled as an oracle environment whose calls may
fail, mirroring the exceptions the Python clients can raise. -/

/-- `UserQuery` (models/user_query.py), restricted to the fields the
retrieval service reads. `query_embedding` is `Optional[List[float]]`. -/
structure UserQuery where
  id : String
  query_text : String
  query_embedding : Option (List Int)
deriving DecidableEq

/-- `RetrievedContext` (models/user_query.py), without the wall-clock
`retrieved_at` default. The Python attribute `section` is a Lean keyword. -/
structure RetrievedContext where
  id : String
  content_id : String
  content_text : String
  similarity_score : Int
  source_path : String
  «section» : String
deriving DecidableEq

/-- External collaborators of `RetrievalService`: the embedding provider
(`embedding_service.generate_query_embedding`) and the adapter search
(`vector_db.search_similar`), each of which may raise. -/
structure RetrievalEnv where
  generate_query_embedding : String → Except String (List Int)
  vdb_search_similar : List Int → Nat → Except String (List SearchResult)

/-- The shared prologue `if not query.query_embedding: generate else reuse`
(Python falsiness: both `None` and `[]` trigger generation). -/
def getQueryEmbedding (env : RetrievalEnv) (query : UserQuery) :
    Except String (List Int) :=
  if (query.query_embedding.getD []).isEmpty then
    env.generate_query_embedding query.query_text
  else
    pure (query.query_embedding.getD [])

/-- The `RetrievedContext(...)` construction shared by all three retrieval
modes (payload.get with empty-string defaults). -/
def toRetrievedContext (r : SearchResult) : RetrievedContext :=
  { id := r.id
    content_id := pget r.payload "id" ""
    content_text := pget r.payload "content" ""
    similarity_score := r.score
    source_path := pget r.payload "source_path" ""
    «section» := pget r.payload "section" "" }

/-- `RetrievalService.retrieve_context` (retrieval.py lines 21-52). -/
def retrieve_context (env : RetrievalEnv) (query : UserQuery) (top_k : Nat := 5) :
    Except String (List RetrievedContext) := do
  let emb ← getQueryEmbedding env query
  let hits ← env.vdb_search_similar emb top_k
  pure (hits.map toRetrievedContext)

/-- An entry of the history list built by `get_session_history`
(storage.py lines 272-278): keys `query`, `response`, `timestamp`, where
`response` is NULL for a query without a response. -/
structure HistoryEntry where
  query : String
  response : Option String
  timestamp : Nat
deriving DecidableEq

/-- Python f-string rendering of an optional value (`None` prints "None"). -/
def pyStr : Option String → String
  | none => "None"
  | some s => s

/-- Python `l[-n:]`. -/
def lastN (n : Nat) (l : List α) : List α := l.drop (l.length - n)

/-- The `conversation_context` string of
`retrieve_context_with_conversation_history` (retrieval.py lines 115-118). -/
def conversationContext (conversation_history : List HistoryEntry) : String :=
  String.intercalate " "
    ((lastN 3 conversation_history).map fun item =>
      "Q: " ++ item.query ++ " A: " ++ pyStr item.response)

/-- The `enhanced_query` string (retrieval.py line 121). -/
def enhancedQuery (query : UserQuery) (conversation_history : List HistoryEntry) :
    String :=
  conversationContext conversation_history ++ " Current question: " ++ query.query_text

/-- The `try` body of `retrieve_context_with_conversation_history`
(retrieval.py lines 113-144): embed the enhanced query (unconditionally) and
search. -/
def fusedRetrievalBody (env : RetrievalEnv) (query : UserQuery)
    (conversation_history : List HistoryEntry) (top_k : Nat) :
    Except String (List RetrievedContext) := do
  let emb ← env.generate_query_embedding (enhancedQuery query conversation_history)
  let hits ← env.vdb_search_similar emb top_k
  pure (hits.map toRetrievedContext)

/-- `RetrievalService.retrieve_context_with_conversation_history`
(retrieval.py lines 108-149): on any exception in the fused path, fall back
to `retrieve_context(query, top_k)`. -/
def retrieve_context_with_conversation_history (env : RetrievalEnv)
    (query : UserQuery) (conversation_history : List HistoryEntry)
    (top_k : Nat := 5) : Except String (List RetrievedContext) :=
  match fusedRetrievalBody env query conversation_history top_k with
  | Except.ok r => Except.ok r
  | Except.error _ => retrieve_context env query top_k

/-- The skip test of `find_related_sections` (retrieval.py line 84):
`if current_section and payload.get('section', '') == current_section`
(`current_section` is falsy when `None` or the empty string). -/
def skipHit (current_section : Option String) (r : SearchResult) : Bool :=
  match current_section with
  | none => false
  | some c => !(c == "") && (pget r.payload "section" "" == c)

/-- The result loop of `find_related_sections` (retrieval.py lines 80-99):
append each non-skipped hit and stop once `top_k` contexts are collected
(the length test runs after the append). -/
def relatedLoop (current_section : Option String) (top_k : Nat) :
    List SearchResult → List RetrievedContext → List RetrievedContext
  | [], acc => acc
  | r :: rest, acc =>
    if skipHit current_section r then relatedLoop current_section top_k rest acc
    else
      if top_k ≤ (acc ++ [toRetrievedContext r]).length then
        acc ++ [toRetrievedContext r]
      else relatedLoop current_section top_k rest (acc ++ [toRetrievedContext r])

/-- `RetrievalService.find_related_sections` (retrieval.py lines 67-106):
search with `limit = top_k * 2`, then filter and truncate. -/
def find_related_sections (env : RetrievalEnv) (query : UserQuery)
    (current_section : Option String := none) (top_k : Nat := 3) :
    Except String (List RetrievedContext) := do
  let emb ← getQueryEmbedding env query
  let hits ← env.vdb_search_similar emb (top_k * 2)
  pure (relatedLoop current_section top_k hits [])

/-- The related-sections call of the chat turn (api/v1/chat.py line 88):
`retrieval_service.find_related_sections(user_query)`, i.e. with the default
`current_section=None` and `top_k=3`. -/
def chatFindRelatedSections (env : RetrievalEnv) (query : UserQuery) :
    Except String (List RetrievedContext) :=
  find_related_sections env query

/-! ### Session update of the chat turn (api/v1/chat.py lines 101-110) -/

/-- The session fields the update step touches. -/
structure SessionState where
  section_history : List String
  current_section : Option String
deriving DecidableEq

/-- The session-update step of `chat` (api/v1/chat.py lines 103-107): when
contexts were retrieved, take the top context's section, append it to
`section_history` if it is not already anywhere in the list
(`if current_section not in session.section_history`), and set
`current_section`. -/
def updateSessionSection (retrieved_contexts : List RetrievedContext)
    (session : SessionState) : SessionState :=
  match retrieved_contexts with
  | [] => session
  | ctx :: _ =>
    { section_history :=
        if ctx.«section» ∈ session.section_history then session.section_history
        else session.section_history ++ [ctx.«section»]
      current_section := some ctx.«section» }

/-! ### Conversation store model (services/storage.py) -/

/-- A row of the `user_queries` table, restricted to the columns
`get_session_history` reads; `created_at` as an abstract timestamp. -/
structure QueryRow where
  id : String
  query_text : String
  session_id : String
  created_at : Nat
deriving DecidableEq

/-- A row of the `generated_responses` table (columns the query reads). -/
structure ResponseRow where
  id : String
  query_id : String
  response_text : String
deriving DecidableEq

/-- `LEFT JOIN generated_responses gr ON uq.id = gr.query_id` restricted to
one query row: the matching response rows. -/
def matchingResponses (responses : List ResponseRow) (qid : String) :
    List ResponseRow :=
  responses.filter (fun r => r.query_id == qid)

/-- SQL semantics of the `get_session_history` query before `ORDER BY`:
each session query row joined with its matching responses, or with NULL
when none match. -/
def leftJoinRows : List QueryRow → List ResponseRow → String → List HistoryEntry
  | [], _, _ => []
  | q :: qs, responses, session_id =>
    if q.session_id == session_id then
      (match matchingResponses responses q.id with
        | [] => [⟨q.query_text, none, q.created_at⟩]
        | ms => ms.map fun r => ⟨q.query_text, some r.response_text, q.created_at⟩) ++
        leftJoinRows qs responses session_id
    else leftJoinRows qs responses session_id

/-- The `ORDER BY uq.created_at` key order. -/
def entryLE (a b : HistoryEntry) : Prop := a.timestamp ≤ b.timestamp

instance : DecidableRel entryLE := fun a b => Nat.decLe a.timestamp b.timestamp

instance : IsTotal HistoryEntry entryLE := ⟨fun a b => Nat.le_total a.timestamp b.timestamp⟩

instance : IsTrans HistoryEntry entryLE := ⟨fun _ _ _ => Nat.le_trans⟩

/-- `StorageService.get_session_history` (storage.py lines 254-288): the
left join of the session's queries with their responses, ordered by the
query's `created_at` (`ORDER BY` sorts by the key; tie order among equal
keys is unspecified in SQL, modelled here by a stable sort). -/
def get_session_history (queries : List QueryRow) (responses : List ResponseRow)
    (session_id : String) : List HistoryEntry :=
  List.insertionSort entryLE (leftJoinRows queries responses session_id)

/-! ### Concrete fixtures used by counterexamples and witnesses -/

/-- An environment in which both external providers fail. -/
def envDown : RetrievalEnv :=
  { generate_query_embedding := fun _ => Except.error "embedding provider down"
    vdb_search_similar := fun _ _ => Except.error "vector search down" }

/-- A plain query with no precomputed embedding. -/
def qDemo : UserQuery :=
  { id := "query_1", query_text := "What are humanoid robots?", query_embedding := none }

/-- Two adapter results used by the related-sections fixtures. -/
def demoResults : List SearchResult :=
  [ { id := "c1", payload := [("id", "c1"), ("section", "Intro")], score := 9 },
    { id := "c2", payload := [("id", "c2"), ("section", "Intro")], score := 8 } ]

/-- An environment whose adapter returns `demoResults`, truncated to the
requested limit. -/
def envTwoHits : RetrievalEnv :=
  { generate_query_embedding := fun _ => Except.ok [1]
    vdb_search_similar := fun _ limit => Except.ok (demoResults.take limit) }

/-- A retrieved context whose section label is "A". -/
def ctxSectionA : RetrievedContext :=
  { id := "cid_a", content_id := "cid_a", content_text := "text", similarity_score := 1
    source_path := "/docs/a", «section» := "A" }

/-- Two stored queries of session "s": "q1" created later than "q2". -/
def dbQueries : List QueryRow :=
  [ { id := "q1", query_text := "hello", session_id := "s", created_at := 5 },
    { id := "q2", query_text := "world", session_id := "s", created_at := 3 } ]

/-- One stored response, answering query "q1" only. -/
def dbResponses : List ResponseRow :=
  [ { id := "r1", query_id := "q1", response_text := "hi" } ]

end RAG

namespace RAG

/-! ### Shared lemmas about the payload map and the point store -/

theorem pget_cons (kv : String × String) (l : Payload) (key d : String) :
    pget (kv :: l) key d = if kv.1 == key then kv.2 else pget l key d := by
  simp only [pget, List.find?]
  by_cases h : kv.1 == key
  · rw [h]
    simp
  · rw [Bool.eq_false_iff.mpr h]
    simp

theorem pget_pset (p : Payload) (key v d : String) : pget (pset p key v) key d = v := by
  induction p with
  | nil => simp [pset, pget_cons, pget]
  | cons kv rest ih =>
    by_cases h : (kv.1 == key) = true
    · simp [pset, h, pget_cons]
    · simp [pset, h, pget_cons, ih]

theorem find?_map_replace (p : QPoint) (s : List QPoint)
    (h : s.any (fun q => q.id == p.id) = true) :
    (s.map fun q => if q.id == p.id then p else q).find? (fun q => q.id == p.id)
      = some p := by
  induction s with
  | nil => simp at h
  | cons a rest ih =>
    by_cases ha : (a.id == p.id) = true
    · simp only [List.map_cons, ha, if_true]
      exact List.find?_cons_of_pos _ (by simp)
    · have ha' : (a.id == p.id) = false := Bool.eq_false_iff.mpr ha
      simp only [List.any_cons, ha', Bool.false_or] at h
      simp only [List.map_cons, ha', if_false, Bool.false_eq_true]
      rw [List.find?_cons_of_neg _ (by simp [ha'])]
      exact ih h

theorem findPoint_upsertPoint_self (s : List QPoint) (p : QPoint) :
    findPoint (upsertPoint s p) p.id = some p := by
  unfold upsertPoint findPoint
  by_cases h : s.any (fun q => q.id == p.id) = true
  · rw [if_pos h]
    exact find?_map_replace p s h
  · rw [if_neg h]
    rw [List.find?_append]
    have hs : s.find? (fun q => q.id == p.id) = none := by
      rw [List.find?_eq_none]
      intro x hx hid
      exact h (List.any_eq_true.mpr ⟨x, hx, hid⟩)
    rw [hs]
    simp [List.find?]

theorem findPoint_upsertPoint_ne (s : List QPoint) (p : QPoint) (i : Nat)
    (h : (p.id == i) = false) :
    findPoint (upsertPoint s p) i = findPoint s i := by
  unfold upsertPoint findPoint
  by_cases ha : s.any (fun q => q.id == p.id) = true
  · rw [if_pos ha]
    clear ha
    induction s with
    | nil => rfl
    | cons a rest ih =>
      simp only [List.map_cons]
      by_cases hap : (a.id == p.id) = true
      · have haid : a.id = p.id := eq_of_beq hap
        simp only [hap, if_true]
        rw [List.find?_cons_of_neg _ (by simp [h]),
          List.find?_cons_of_neg _ (by simp [haid, h])]
        exact ih
      · have hap' : (a.id == p.id) = false := Bool.eq_false_iff.mpr hap
        simp only [hap', if_false, Bool.false_eq_true]
        by_cases hai : (a.id == i) = true
        · rw [List.find?_cons_of_pos (p := fun q : QPoint => q.id == i) _ hai,
            List.find?_cons_of_pos (p := fun q : QPoint => q.id == i) _ hai]
        · rw [List.find?_cons_of_neg (p := fun q : QPoint => q.id == i) _ hai,
            List.find?_cons_of_neg (p := fun q : QPoint => q.id == i) _ hai]
          exact ih
  · rw [if_neg ha, List.find?_append]
    have : List.find? (fun q => q.id == i) [p] = none := by
      rw [List.find?_eq_none]
      intro x hx
      rw [List.mem_singleton.mp hx]
      simp [h]
    rw [this, Option.or_none]

theorem findPoint_foldl_of_forall_ne (batch : List QPoint) (s : List QPoint) (i : Nat)
    (h : ∀ p ∈ batch, (p.id == i) = false) :
    findPoint (batch.foldl upsertPoint s) i = findPoint s i := by
  induction batch generalizing s with
  | nil => rfl
  | cons a rest ih =>
    simp only [List.foldl_cons]
    rw [ih (upsertPoint s a) (fun p hp => h p (List.mem_cons_of_mem a hp))]
    exact findPoint_upsertPoint_ne s a i (h a (List.mem_cons_self a rest))

theorem findPoint_foldl_mem (batch : List QPoint) (p : QPoint)
    (hmem : p ∈ batch) (hnodup : (batch.map QPoint.id).Nodup) :
    ∀ s : List QPoint, findPoint (batch.foldl upsertPoint s) p.id = some p := by
  induction batch with
  | nil => cases hmem
  | cons a rest ih =>
    intro s
    simp only [List.map_cons, List.nodup_cons] at hnodup
    rcases List.mem_cons.mp hmem with rfl | hrest
    · simp only [List.foldl_cons]
      rw [findPoint_foldl_of_forall_ne rest (upsertPoint s p) p.id ?_]
      · exact findPoint_upsertPoint_self s p
      · intro q hq
        refine Bool.eq_false_iff.mpr fun hb => ?_
        exact hnodup.1 (List.mem_map.mpr ⟨q, hq, eq_of_beq hb⟩)
    · exact ih hrest hnodup.2 (upsertPoint s a)

theorem buildPointsAux_map_id (cs : List String) :
    ∀ (i : Nat) (es : List (List Int)) (ps : List Payload),
      (buildPointsAux i cs es ps).map QPoint.id
        = List.range' i (buildPointsAux i cs es ps).length := by
  induction cs with
  | nil => intro i es ps; rfl
  | cons c cs ih =>
    intro i es ps
    cases es with
    | nil => rfl
    | cons e es =>
      cases ps with
      | nil => rfl
      | cons p ps =>
        simp only [buildPointsAux, List.map_cons, List.length_cons, List.range'_succ]
        rw [ih]

theorem buildPointsAux_length_le (cs : List String) :
    ∀ (i : Nat) (es : List (List Int)) (ps : List Payload),
      (buildPointsAux i cs es ps).length ≤ cs.length := by
  induction cs with
  | nil => intro i es ps; exact Nat.le_refl 0
  | cons c cs ih =>
    intro i es ps
    cases es with
    | nil => exact Nat.zero_le _
    | cons e es =>
      cases ps with
      | nil => exact Nat.zero_le _
      | cons p ps => exact Nat.succ_le_succ (ih (i + 1) es ps)

theorem buildPointsAux_get (cs : List String) :
    ∀ (i : Nat) (es : List (List Int)) (ps : List Payload) (j : Nat)
      (h : j < (buildPointsAux i cs es ps).length),
      ∃ (hc : j < cs.length) (he : j < es.length) (hp : j < ps.length),
        (buildPointsAux i cs es ps).get ⟨j, h⟩
          = ⟨i + j, es.get ⟨j, he⟩,
              payloadWithOriginalId (ps.get ⟨j, hp⟩) (cs.get ⟨j, hc⟩)⟩ := by
  induction cs with
  | nil => intro i es ps j h; cases h
  | cons c cs ih =>
    intro i es ps j h
    cases es with
    | nil => cases h
    | cons e es =>
      cases ps with
      | nil => cases h
      | cons p ps =>
        cases j with
        | zero =>
          exact ⟨Nat.succ_pos _, Nat.succ_pos _, Nat.succ_pos _, by simp [buildPointsAux]⟩
        | succ j =>
          have h' : j < (buildPointsAux (i + 1) cs es ps).length :=
            Nat.lt_of_succ_lt_succ h
          obtain ⟨hc, he, hp, hg⟩ := ih (i + 1) es ps j h'
          refine ⟨Nat.succ_lt_succ hc, Nat.succ_lt_succ he, Nat.succ_lt_succ hp, ?_⟩
          simp only [buildPointsAux, List.get_cons_succ, hg]
          congr 1
          omega

theorem buildPoints_id_nodup (cs : List String) (es : List (List Int))
    (ps : List Payload) : ((buildPoints cs es ps).map QPoint.id).Nodup := by
  rw [buildPoints, buildPointsAux_map_id]
  exact List.nodup_range' 0 _

/-- `upsert` of a point with the same native id supersedes the earlier
upsert entirely. -/
theorem upsertPoint_upsertPoint_same_id (s : List QPoint) (p q : QPoint)
    (h : p.id = q.id) :
    upsertPoint (upsertPoint s p) q = upsertPoint s q := by
  obtain ⟨pid, pv, ppl⟩ := p
  obtain ⟨qid, qv, qpl⟩ := q
  simp only at h
  subst h
  by_cases ha : s.any (fun r => r.id == pid) = true
  · have hmap : ((s.map fun r => if r.id == pid then ⟨pid, pv, ppl⟩ else r).any
        fun r => (r.id == (⟨pid, qv, qpl⟩ : QPoint).id)) = true := by
      obtain ⟨x, hx, hxid⟩ := List.any_eq_true.mp ha
      exact List.any_eq_true.mpr ⟨_, List.mem_map.mpr ⟨x, hx, rfl⟩, by rw [hxid]; simp⟩
    unfold upsertPoint
    simp only [ha, if_true, hmap, List.map_map]
    congr 1
    funext r
    by_cases hr : r.id == pid
    · simp [Function.comp, hr]
    · simp [Function.comp, hr]
  · have hb : ((s ++ [(⟨pid, pv, ppl⟩ : QPoint)]).any
        fun r => (r.id == (⟨pid, qv, qpl⟩ : QPoint).id)) = true := by
      simp
    unfold upsertPoint
    simp only [ha, if_false, Bool.false_eq_true, hb, if_true, List.map_append]
    have hs : (s.map fun r =>
        if r.id == (⟨pid, qv, qpl⟩ : QPoint).id then ⟨pid, qv, qpl⟩ else r) = s := by
      have : (s.map fun r =>
          if r.id == (⟨pid, qv, qpl⟩ : QPoint).id then ⟨pid, qv, qpl⟩ else r)
          = s.map id := by
        refine List.map_congr_left fun r hr => ?_
        have hrid : (r.id == pid) = false := by
          refine Bool.eq_false_iff.mpr fun hbe => ?_
          exact ha (List.any_eq_true.mpr ⟨r, hr, hbe⟩)
        simp [hrid]
      rw [this, List.map_id]
    rw [hs]
    simp

/-! ### C1: identity round-trip through the vector index adapter -/

/-- C1: every point written by `add_embeddings` carries the caller-supplied
content id under `original_content_id`, is stored under its numeric native
id, and a `search_similar` call whose hits include that point surfaces the
original content id in the result's `id` field (the `str(hit.id)` default is
never used for points written by `add_embeddings`). -/
theorem c1_identity_roundtrip (store : List QPoint) (content_ids : List String)
    (embeddings : List (List Int)) (payloads : List Payload) (score : Int) (i : Nat)
    (h : i < (buildPoints content_ids embeddings payloads).length) :
    ∃ hc : i < content_ids.length,
      findPoint (add_embeddings store content_ids embeddings payloads) i
          = some ((buildPoints content_ids embeddings payloads).get ⟨i, h⟩) ∧
        search_similar
            [⟨i, ((buildPoints content_ids embeddings payloads).get ⟨i, h⟩).payload,
              score⟩]
          = [⟨content_ids.get ⟨i, hc⟩,
              ((buildPoints content_ids embeddings payloads).get ⟨i, h⟩).payload,
              score⟩] := by
  obtain ⟨hc, he, hp, hg⟩ := buildPointsAux_get content_ids 0 embeddings payloads i h
  have hid : ((buildPoints content_ids embeddings payloads).get ⟨i, h⟩).id = i := by
    unfold buildPoints
    rw [hg]
    simp
  refine ⟨hc, ?_, ?_⟩
  · have hm := findPoint_foldl_mem (buildPoints content_ids embeddings payloads)
      ((buildPoints content_ids embeddings payloads).get ⟨i, h⟩)
      (List.get_mem _ _ _) (buildPoints_id_nodup _ _ _) store
    rw [hid] at hm
    exact hm
  · unfold search_similar processHit
    simp only [List.map_cons, List.map_nil]
    have hpl : ((buildPoints content_ids embeddings payloads).get ⟨i, h⟩).payload
        = payloadWithOriginalId (payloads.get ⟨i, hp⟩) (content_ids.get ⟨i, hc⟩) := by
      unfold buildPoints
      rw [hg]
    rw [hpl, payloadWithOriginalId, pget_pset]

/-- C1 witness: a concrete upsert of content id "doc_7_chunk_2" followed by
a search over the stored point. -/
theorem c1_identity_roundtrip_witness :
    ∃ hc : 0 < (["doc_7_chunk_2"] : List String).length,
      findPoint
          (add_embeddings [] ["doc_7_chunk_2"] [[1, 2]] [[("id", "doc_7_chunk_2")]]) 0
          = some ((buildPoints ["doc_7_chunk_2"] [[1, 2]]
              [[("id", "doc_7_chunk_2")]]).get ⟨0, by decide⟩) ∧
        search_similar
            [⟨0, ((buildPoints ["doc_7_chunk_2"] [[1, 2]]
                [[("id", "doc_7_chunk_2")]]).get ⟨0, by decide⟩).payload, 9⟩]
          = [⟨(["doc_7_chunk_2"] : List String).get ⟨0, by decide⟩,
              ((buildPoints ["doc_7_chunk_2"] [[1, 2]]
                [[("id", "doc_7_chunk_2")]]).get ⟨0, by decide⟩).payload, 9⟩] :=
  c1_identity_roundtrip [] ["doc_7_chunk_2"] [[1, 2]] [[("id", "doc_7_chunk_2")]] 9 0
    (by decide)

/-! ### C6: native-id reuse across repeated ingestion -/

/-- C6 counterexample: ingesting the same single content id twice produces a
store with exactly one point (the second call reuses native id 0 and
replaces the first point), not the duplicate points the claim asserts. -/
theorem c6_duplicate_counterexample :
    add_embeddings (add_embeddings [] ["doc_1"] [[1, 2]] [[("id", "doc_1")]])
        ["doc_1"] [[3, 4]] [[("id", "doc_1")]]
        = [⟨0, [3, 4], [("id", "doc_1"), ("original_content_id", "doc_1")]⟩] ∧
      (add_embeddings (add_embeddings [] ["doc_1"] [[1, 2]] [[("id", "doc_1")]])
          ["doc_1"] [[3, 4]] [[("id", "doc_1")]]).length = 1 := by
  decide

/-- C6 amended: `add_embeddings` assigns native ids positionally (`i` for
the i-th batch item), not freshly per call: re-ingesting a content id at the
same batch position replaces the earlier point (a repeated single-item call
is equivalent to the second call alone), while re-ingesting a content id at
a different position leaves two points carrying the same
`original_content_id`. -/
theorem c6_positional_reingestion_amended :
    (∀ (store : List QPoint) (cid : String) (e e' : List Int) (pl pl' : Payload),
        add_embeddings (add_embeddings store [cid] [e] [pl]) [cid] [e'] [pl']
          = add_embeddings store [cid] [e'] [pl']) ∧
      ∀ (cid₀ cid : String) (e₀ e₁ e₂ : List Int) (pl₀ pl₁ pl₂ : Payload),
        add_embeddings (add_embeddings [] [cid₀, cid] [e₀, e₁] [pl₀, pl₁])
            [cid] [e₂] [pl₂]
          = [⟨0, e₂, payloadWithOriginalId pl₂ cid⟩,
              ⟨1, e₁, payloadWithOriginalId pl₁ cid⟩] := by
  constructor
  · intro store cid e e' pl pl'
    show upsertPoint (upsertPoint store ⟨0, e, payloadWithOriginalId pl cid⟩)
        ⟨0, e', payloadWithOriginalId pl' cid⟩
      = upsertPoint store ⟨0, e', payloadWithOriginalId pl' cid⟩
    exact upsertPoint_upsertPoint_same_id store _ _ rfl
  · intro cid₀ cid e₀ e₁ e₂ pl₀ pl₁ pl₂
    rfl

/-! ### C9: positional native ids make later upserts overwrite -/

/-- C9: the batch written by `add_embeddings` carries native ids exactly
`0..n-1`, and after two successive calls every native id smaller than the
second batch's length holds the second call's point — the second call
overwrites the first call's point at every shared index, regardless of the
content ids involved. -/
theorem c9_positional_ids_overwrite (store : List QPoint)
    (cidsA : List String) (embsA : List (List Int)) (plsA : List Payload)
    (cidsB : List String) (embsB : List (List Int)) (plsB : List Payload) :
    ((buildPoints cidsB embsB plsB).map QPoint.id
        = List.range (buildPoints cidsB embsB plsB).length) ∧
      ∀ (i : Nat) (h : i < (buildPoints cidsB embsB plsB).length),
        findPoint
            (add_embeddings (add_embeddings store cidsA embsA plsA) cidsB embsB plsB) i
          = some ((buildPoints cidsB embsB plsB).get ⟨i, h⟩) := by
  constructor
  · rw [buildPoints, buildPointsAux_map_id, List.range_eq_range']
  · intro i h
    obtain ⟨hc, he, hp, hg⟩ := buildPointsAux_get cidsB 0 embsB plsB i h
    have hid : ((buildPoints cidsB embsB plsB).get ⟨i, h⟩).id = i := by
      unfold buildPoints
      rw [hg]
      simp
    have hm := findPoint_foldl_mem (buildPoints cidsB embsB plsB)
      ((buildPoints cidsB embsB plsB).get ⟨i, h⟩)
      (List.get_mem _ _ _) (buildPoints_id_nodup _ _ _)
      (add_embeddings store cidsA embsA plsA)
    rw [hid] at hm
    exact hm

/-- C9 witness: a first call of two items followed by a second call of one
item; index 0 afterwards holds the second call's point. -/
theorem c9_positional_ids_overwrite_witness :
    ((buildPoints ["c"] [[3]] [[]]).map QPoint.id
        = List.range (buildPoints ["c"] [[3]] [[]]).length) ∧
      findPoint
          (add_embeddings (add_embeddings [] ["a", "b"] [[1], [2]] [[], []])
            ["c"] [[3]] [[]]) 0
        = some ((buildPoints ["c"] [[3]] [[]]).get ⟨0, by decide⟩) :=
  ⟨(c9_positional_ids_overwrite [] ["a", "b"] [[1], [2]] [[], []] ["c"] [[3]] [[]]).1,
    (c9_positional_ids_overwrite [] ["a", "b"] [[1], [2]] [[], []] ["c"] [[3]] [[]]).2 0
      (by decide)⟩

/-! ### C2: overlap invariant of the segmenter -/

/-- C2 counterexample: `chunk_content("ab cd. fg hi.", 8, 4)` produces two
chunks, and the second does not begin with the trailing 4 characters of the
first: the trailing characters `" cd."` start with a space which the
`.strip()` of the overlap pass removes, so the second chunk starts
`"cd. "`. -/
theorem c2_overlap_counterexample :
    chunk_content "ab cd. fg hi.".toList 8 4
        = ["ab cd.".toList, "cd. fg hi.".toList] ∧
      ¬ ((chunk_content "ab cd. fg hi.".toList 8 4).getD 1 []).take 4
          = takeRightText 4 ((chunk_content "ab cd. fg hi.".toList 8 4).getD 0 []) := by
  decide

/-! ### C3: segmentation round-trip bound -/

/-- C3: the claim that no content is silently dropped is right about the
intended behavior but wrong about the code: for a nonempty input consisting
of a single word of length `chunk_size` or more (here ten characters with
`chunk_size = 5`), the word-splitting branch of `chunk_content` never
assigns the oversized word to `temp_chunk`, and the whole content is
dropped: the chunk list comes back empty. -/
theorem c3_roundtrip_code_bug :
    List.replicate 10 'a' ≠ [] ∧ chunk_content (List.replicate 10 'a') 5 0 = [] := by
  decide

/-! ### C4: fallback correctness of conversation-fused retrieval -/

/-- C4: if any step of the fused path of
`retrieve_context_with_conversation_history` fails, the call returns exactly
the result of `retrieve_context` on the same query and the same `top_k`. -/
theorem c4_fused_fallback (env : RetrievalEnv) (query : UserQuery)
    (conversation_history : List HistoryEntry) (top_k : Nat)
    (h : ∃ e, fusedRetrievalBody env query conversation_history top_k = Except.error e) :
    retrieve_context_with_conversation_history env query conversation_history top_k
      = retrieve_context env query top_k := by
  obtain ⟨e, he⟩ := h
  unfold retrieve_context_with_conversation_history
  rw [he]

/-- C4 witness: with both providers failing, the fused body fails and the
fallback equality holds at a concrete input. -/
theorem c4_fused_fallback_witness :
    (∃ e, fusedRetrievalBody envDown qDemo [] 5 = Except.error e) ∧
      retrieve_context_with_conversation_history envDown qDemo [] 5
        = retrieve_context envDown qDemo 5 :=
  ⟨⟨"embedding provider down", rfl⟩,
    c4_fused_fallback envDown qDemo [] 5 ⟨"embedding provider down", rfl⟩⟩

/-! ### C5: session section-history update rule -/

/-- C5 counterexample: with `section_history = ["A", "B"]` and top context
section `"A"`, the claimed adjacency rule would append (`"A"` differs from
the tail `"B"`), but the code deduplicates globally
(`if current_section not in session.section_history`) and leaves the history
unchanged. -/
theorem c5_section_history_counterexample :
    updateSessionSection [ctxSectionA] ⟨["A", "B"], some "B"⟩
        = ⟨["A", "B"], some "A"⟩ ∧
      (["A", "B"] : List String) ≠ ["A", "B", "A"] ∧
      ctxSectionA.«section» = "A" := by
  decide

/-- C5 amended: in a turn with at least one retrieved context, the top
context's section is appended to `section_history` exactly when it occurs
nowhere in the history (global deduplication, not adjacency), and
`current_section` is set to it; with no retrieved context the session is
untouched. -/
theorem c5_section_history_amended :
    (∀ session : SessionState, updateSessionSection [] session = session) ∧
      ∀ (ctx : RetrievedContext) (rest : List RetrievedContext) (session : SessionState),
        (updateSessionSection (ctx :: rest) session).current_section
            = some ctx.«section» ∧
          (ctx.«section» ∈ session.section_history →
            (updateSessionSection (ctx :: rest) session).section_history
              = session.section_history) ∧
          (ctx.«section» ∉ session.section_history →
            (updateSessionSection (ctx :: rest) session).section_history
              = session.section_history ++ [ctx.«section»]) := by
  refine ⟨fun _ => rfl, fun ctx rest session => ⟨rfl, fun h => ?_, fun h => ?_⟩⟩
  · simp [updateSessionSection, h]
  · simp [updateSessionSection, h]

/-- C5 amended witness: both branches of the amended rule at concrete
sessions. -/
theorem c5_section_history_amended_witness :
    updateSessionSection [] ⟨["A"], none⟩ = ⟨["A"], none⟩ ∧
      (updateSessionSection [ctxSectionA] ⟨["A", "B"], some "B"⟩).section_history
          = ["A", "B"] ∧
      (updateSessionSection [ctxSectionA] ⟨["B"], some "B"⟩).section_history
          = ["B"] ++ ["A"] :=
  ⟨c5_section_history_amended.1 _,
    (c5_section_history_amended.2 ctxSectionA [] ⟨["A", "B"], some "B"⟩).2.1 (by decide),
    (c5_section_history_amended.2 ctxSectionA [] ⟨["B"], some "B"⟩).2.2 (by decide)⟩

/-! ### C7: collection creation semantics -/

/-- C7 counterexample: with an existing collection of dimension 512, a
`create_collection` request for dimension 1024 succeeds silently and leaves
the collection unchanged — no configuration error is surfaced. -/
theorem c7_create_collection_counterexample :
    create_collection [("book_content", 512)] "book_content" 1024
        = Except.ok [("book_content", 512)] ∧
      (512 : Nat) ≠ 1024 :=
  ⟨rfl, by decide⟩

/-- C7 amended: `create_collection` is idempotent — it creates the backing
collection only when the configured name is absent — but it never inspects
an existing collection's dimension: a mismatched dimension is silently
accepted, not surfaced as an error. -/
theorem c7_create_collection_amended :
    (∀ (collections : List (String × Nat)) (name : String) (size : Nat),
        (collections.map Prod.fst).contains name = true →
          create_collection collections name size = Except.ok collections) ∧
      (∀ (collections : List (String × Nat)) (name : String) (size : Nat),
        (collections.map Prod.fst).contains name = false →
          create_collection collections name size
            = Except.ok (collections ++ [(name, size)])) ∧
      ∀ (collections : List (String × Nat)) (name : String) (size size' : Nat),
        (create_collection collections name size).bind
            (fun c => create_collection c name size')
          = create_collection collections name size := by
  have bind_ok : ∀ {α β : Type} (a : α) (f : α → Except String β),
      (Except.ok a).bind f = f a := fun _ _ => rfl
  have mk : ∀ (collections : List (String × Nat)) (name : String) (size : Nat),
      create_collection collections name size
        = if (collections.map Prod.fst).contains name then Except.ok collections
          else Except.ok (collections ++ [(name, size)]) := fun _ _ _ => rfl
  refine ⟨fun collections name size h => ?_, fun collections name size h => ?_,
    fun collections name size size' => ?_⟩
  · rw [mk, h, if_pos rfl]
  · rw [mk, h]
    simp
  · by_cases h : (collections.map Prod.fst).contains name = true
    · have e1 : create_collection collections name size = Except.ok collections := by
        rw [mk, h, if_pos rfl]
      have e2 : create_collection collections name size' = Except.ok collections := by
        rw [mk, h, if_pos rfl]
      rw [e1, bind_ok, e2]
    · have hf : (collections.map Prod.fst).contains name = false :=
        Bool.eq_false_iff.mpr h
      have e1 : create_collection collections name size
          = Except.ok (collections ++ [(name, size)]) := by
        rw [mk, hf]
        simp
      have hm : ((collections ++ [(name, size)]).map Prod.fst).contains name = true := by
        simp
      rw [e1, bind_ok, mk, hm, if_pos rfl]

/-- C7 amended witness: the existing-name and absent-name branches and the
idempotence equation at concrete collection lists. -/
theorem c7_create_collection_amended_witness :
    create_collection [("book_content", 512)] "book_content" 1024
        = Except.ok [("book_content", 512)] ∧
      create_collection [] "book_content" 1024
        = Except.ok [("book_content", 1024)] ∧
      (create_collection [] "book_content" 1024).bind
          (fun c => create_collection c "book_content" 512)
        = create_collection [] "book_content" 1024 :=
  ⟨c7_create_collection_amended.1 _ _ _ (by decide),
    c7_create_collection_amended.2.1 _ _ _ (by decide),
    c7_create_collection_amended.2.2 [] "book_content" 1024 512⟩

/-! ### C10: no section filtering on the serving path -/

theorem relatedLoop_none_eq_take (top_k : Nat) (hits : List SearchResult) :
    ∀ acc : List RetrievedContext, acc.length < top_k →
      relatedLoop none top_k hits acc
        = acc ++ (hits.map toRetrievedContext).take (top_k - acc.length) := by
  induction hits with
  | nil =>
    intro acc h
    simp [relatedLoop]
  | cons r rest ih =>
    intro acc hlt
    unfold relatedLoop
    rw [show skipHit none r = false from rfl]
    simp only [Bool.false_eq_true, if_false, List.length_append, List.length_cons,
      List.length_nil, Nat.zero_add]
    by_cases hfull : top_k ≤ acc.length + 1
    · have heq : top_k = acc.length + 1 := Nat.le_antisymm hfull hlt
      rw [if_pos hfull, List.map_cons]
      have h1 : top_k - acc.length = 1 := by omega
      rw [h1, List.take_succ_cons, List.take_zero]
    · rw [if_neg hfull]
      rw [ih (acc ++ [toRetrievedContext r]) (by simp; omega)]
      rw [List.map_cons]
      have h2 : top_k - acc.length = (top_k - (acc.length + 1)) + 1 := by omega
      rw [h2, List.take_succ_cons]
      simp

/-- C10: the chat turn requests related sections with no current section
(`find_related_sections(user_query)`), and with `current_section = None` no
hit is ever filtered out: given the adapter returned `hits` (at most the
requested `top_k * 2`), the suggestions are exactly the first `top_k` hits
in adapter order. -/
theorem c10_no_section_filter (env : RetrievalEnv) (query : UserQuery) (top_k : Nat)
    (emb : List Int) (hits : List SearchResult)
    (hemb : getQueryEmbedding env query = Except.ok emb)
    (hsearch : env.vdb_search_similar emb (top_k * 2) = Except.ok hits)
    (hbound : hits.length ≤ top_k * 2) :
    find_related_sections env query none top_k
        = Except.ok ((hits.map toRetrievedContext).take top_k) ∧
      chatFindRelatedSections env query = find_related_sections env query none 3 := by
  have bind_ok : ∀ {α β : Type} (a : α) (f : α → Except String β),
      (Except.ok a : Except String α) >>= f = f a := fun _ _ => rfl
  constructor
  · unfold find_related_sections
    rw [hemb, bind_ok, hsearch, bind_ok]
    cases top_k with
    | zero =>
      have : hits = [] := List.length_eq_zero.mp (Nat.le_antisymm hbound (Nat.zero_le _))
      subst this
      rfl
    | succ k =>
      rw [relatedLoop_none_eq_take (k + 1) hits [] (Nat.succ_pos k)]
      rfl
  · rfl

/-- C10 witness: a concrete environment returning two hits; with `top_k = 3`
the suggestions are both hits, unfiltered. -/
theorem c10_no_section_filter_witness :
    (find_related_sections envTwoHits qDemo none 3
        = Except.ok ((demoResults.map toRetrievedContext).take 3)) ∧
      chatFindRelatedSections envTwoHits qDemo
        = find_related_sections envTwoHits qDemo none 3 :=
  c10_no_section_filter envTwoHits qDemo 3 [1] demoResults rfl rfl (by decide)

/-! ### C8: history reconstruction -/

theorem matchingResponses_eq_find? (responses : List ResponseRow) (qid : String)
    (h : (responses.map ResponseRow.query_id).Nodup) :
    matchingResponses responses qid
      = (responses.find? (fun r => r.query_id == qid)).toList := by
  induction responses with
  | nil => rfl
  | cons r rest ih =>
    simp only [List.map_cons, List.nodup_cons] at h
    by_cases hq : (r.query_id == qid) = true
    · have hqe : r.query_id = qid := eq_of_beq hq
      have hrest : matchingResponses rest qid = [] := by
        unfold matchingResponses
        rw [List.filter_eq_nil_iff]
        intro x hx hb
        exact h.1 (hqe ▸ List.mem_map.mpr ⟨x, hx, eq_of_beq hb⟩)
      unfold matchingResponses at hrest ⊢
      rw [List.filter_cons_of_pos (p := fun r : ResponseRow => r.query_id == qid) hq,
        hrest, List.find?_cons_of_pos (p := fun r : ResponseRow => r.query_id == qid) _ hq]
      rfl
    · unfold matchingResponses at ih ⊢
      rw [List.filter_cons_of_neg (p := fun r : ResponseRow => r.query_id == qid) hq,
        List.find?_cons_of_neg (p := fun r : ResponseRow => r.query_id == qid) _ hq]
      exact ih h.2

theorem leftJoinRows_eq_map (queries : List QueryRow) (responses : List ResponseRow)
    (sid : String) (h : (responses.map ResponseRow.query_id).Nodup) :
    leftJoinRows queries responses sid
      = (queries.filter (fun q => q.session_id == sid)).map fun q =>
          ⟨q.query_text,
            (responses.find? (fun r => r.query_id == q.id)).map ResponseRow.response_text,
            q.created_at⟩ := by
  induction queries with
  | nil => rfl
  | cons q qs ih =>
    by_cases hs : (q.session_id == sid) = true
    · unfold leftJoinRows
      rw [if_pos hs, matchingResponses_eq_find? responses q.id h, ih,
        List.filter_cons_of_pos (p := fun q : QueryRow => q.session_id == sid) hs,
        List.map_cons]
      cases hfind : responses.find? (fun r => r.query_id == q.id) with
      | none => rfl
      | some r => rfl
    · unfold leftJoinRows
      rw [if_neg hs, ih,
        List.filter_cons_of_neg (p := fun q : QueryRow => q.session_id == sid) hs]

/-- C8: `get_session_history` returns the session's exchanges in
non-decreasing `created_at` order, and — provided each query has at most one
saved response (the 1:1 invariant of `generated_responses.query_id`) — the
result is a permutation of one entry per saved session query, each carrying
that query's matching response text, or NULL when no response matches
(left-join semantics). -/
theorem c8_history_reconstruction (queries : List QueryRow)
    (responses : List ResponseRow) (sid : String)
    (huniq : (responses.map ResponseRow.query_id).Nodup) :
    List.Sorted entryLE (get_session_history queries responses sid) ∧
      (get_session_history queries responses sid).Perm
        ((queries.filter (fun q => q.session_id == sid)).map fun q =>
          ⟨q.query_text,
            (responses.find? (fun r => r.query_id == q.id)).map ResponseRow.response_text,
            q.created_at⟩) := by
  constructor
  · exact List.sorted_insertionSort entryLE _
  · have hperm := List.perm_insertionSort entryLE (leftJoinRows queries responses sid)
    refine hperm.trans ?_
    rw [leftJoinRows_eq_map queries responses sid huniq]

/-! ### C2 support: strip/overlap reasoning on trimmed chunks -/

theorem dropWhile_ws_nil_or_starts (l : Text) :
    l.dropWhile Char.isWhitespace = [] ∨
      startsNonWS (l.dropWhile Char.isWhitespace) = true := by
  induction l with
  | nil => exact Or.inl rfl
  | cons c rest ih =>
    by_cases hc : c.isWhitespace = true
    · rw [List.dropWhile_cons, if_pos hc]
      exact ih
    · rw [List.dropWhile_cons, if_neg hc]
      right
      simp only [startsNonWS, Bool.not_eq_true]
      simp only [Bool.not_eq_true] at hc
      rw [hc]
      rfl

theorem dropWhile_ws_of_starts (l : Text) (h : startsNonWS l = true) :
    l.dropWhile Char.isWhitespace = l := by
  cases l with
  | nil => rfl
  | cons c rest =>
    have hc : c.isWhitespace = false := by
      simpa [startsNonWS] using h
    rw [List.dropWhile_cons, hc]
    simp

theorem startsNonWS_append (a b : Text) (h : a ≠ []) :
    startsNonWS (a ++ b) = startsNonWS a := by
  cases a with
  | nil => cases h rfl
  | cons c rest => rfl

theorem trimText_eq_self (l : Text) (h1 : startsNonWS l = true)
    (h2 : startsNonWS l.reverse = true) : trimText l = l := by
  unfold trimText
  rw [dropWhile_ws_of_starts l h1, dropWhile_ws_of_starts l.reverse h2,
    List.reverse_reverse]

theorem trimText_reverse_starts (x : Text) (h : trimText x ≠ []) :
    startsNonWS (trimText x).reverse = true := by
  have hrev : (trimText x).reverse
      = (x.dropWhile Char.isWhitespace).reverse.dropWhile Char.isWhitespace := by
    unfold trimText
    rw [List.reverse_reverse]
  rcases dropWhile_ws_nil_or_starts (x.dropWhile Char.isWhitespace).reverse with hn | hs
  · exact absurd (by unfold trimText; rw [hn]; rfl) h
  · rw [hrev]
    exact hs

theorem wordLoop_mem_trim (n : Nat) (words : List Text) :
    ∀ (temp c : Text), c ∈ wordLoop n words temp → ∃ x, c = trimText x := by
  induction words with
  | nil =>
    intro temp c hc
    by_cases ht : temp.isEmpty = true
    · simp [wordLoop, ht] at hc
    · simp only [wordLoop, ht, if_false, Bool.false_eq_true, List.mem_singleton] at hc
      exact ⟨temp, hc⟩
  | cons w rest ih =>
    intro temp c hc
    unfold wordLoop at hc
    by_cases hfit : temp.length + 1 + w.length ≤ n
    · rw [if_pos hfit] at hc
      exact ih _ c hc
    · rw [if_neg hfit] at hc
      by_cases ht : temp.isEmpty = true
      · rw [if_pos ht] at hc
        exact ih _ c hc
      · rw [if_neg ht] at hc
        rcases List.mem_cons.mp hc with rfl | hc2
        · exact ⟨temp, rfl⟩
        · exact ih _ c hc2

theorem sentenceLoop_mem_trim (n : Nat) (ss : List Text) :
    ∀ (cur c : Text), c ∈ sentenceLoop n ss cur → ∃ x, c = trimText x := by
  induction ss with
  | nil =>
    intro cur c hc
    by_cases hcur : cur.isEmpty = true
    · simp [sentenceLoop, hcur] at hc
    · simp only [sentenceLoop, hcur, if_false, Bool.false_eq_true,
        List.mem_singleton] at hc
      exact ⟨cur, hc⟩
  | cons s rest ih =>
    intro cur c hc
    unfold sentenceLoop at hc
    by_cases hfit : cur.length + 1 + s.length ≤ n
    · rw [if_pos hfit] at hc
      exact ih _ c hc
    · rw [if_neg hfit] at hc
      rcases List.mem_append.mp hc with h1 | h2
      · by_cases hcur : cur.isEmpty = true
        · rw [if_pos hcur] at h1
          cases h1
        · rw [if_neg hcur] at h1
          exact ⟨cur, List.mem_singleton.mp h1⟩
      · by_cases hlong : n < s.length
        · rw [if_pos hlong] at h2
          rcases List.mem_append.mp h2 with h3 | h4
          · exact wordLoop_mem_trim n (wordsOf s) [] c h3
          · exact ih _ c h4
        · rw [if_neg hlong] at h2
          exact ih _ c h2

theorem preChunks_mem_trim (content : Text) (n : Nat) :
    ∀ c ∈ preChunks content n, ∃ x, c = trimText x :=
  fun c hc => sentenceLoop_mem_trim n (splitSentences content) [] c hc

theorem length_takeRightText (n : Nat) (l : Text) (h : n ≤ l.length) :
    (takeRightText n l).length = n := by
  unfold takeRightText
  rw [List.length_drop]
  omega

theorem takeRightText_append (n : Nat) (a b : Text) (h : n ≤ b.length) :
    takeRightText n (a ++ b) = takeRightText n b := by
  unfold takeRightText
  have he : (a ++ b).length - n = a.length + (b.length - n) := by
    rw [List.length_append]
    omega
  rw [he, List.drop_append]

theorem overlappedGo_getD (ov : Nat) (l : List Text) :
    ∀ (prev : Text) (j : Nat), j < l.length →
      (overlappedGo ov prev l).getD j []
        = trimText (takeRightText ov ((prev :: l).getD j []) ++ ' ' :: l.getD j []) := by
  induction l with
  | nil =>
    intro prev j h
    cases h
  | cons c cs ih =>
    intro prev j h
    cases j with
    | zero => rfl
    | succ j =>
      have h' : j < cs.length := Nat.lt_of_succ_lt_succ h
      simp only [overlappedGo, List.getD_cons_succ]
      exact ih c j h'

theorem overlapped_getD_zero (ov : Nat) (cs : List Text) :
    (overlapped ov cs).getD 0 [] = cs.getD 0 [] := by
  cases cs with
  | nil => rfl
  | cons c rest => rfl

theorem overlapped_getD_succ (ov : Nat) (cs : List Text) (j : Nat)
    (h : j + 1 < cs.length) :
    (overlapped ov cs).getD (j + 1) []
      = trimText (takeRightText ov (cs.getD j []) ++ ' ' :: cs.getD (j + 1) []) := by
  cases cs with
  | nil => cases h
  | cons c rest =>
    have h' : j < rest.length := Nat.lt_of_succ_lt_succ h
    simp only [overlapped, List.getD_cons_succ]
    rw [overlappedGo_getD ov rest c j h']

theorem overlap_block_clean (a c : Text)
    (halen : 0 < a.length) (ha : startsNonWS a = true)
    (hcne : c ≠ []) (hcrev : startsNonWS c.reverse = true) :
    trimText (a ++ ' ' :: c) = a ++ ' ' :: c := by
  have hane : a ≠ [] := by
    intro hnil
    rw [hnil] at halen
    cases halen
  have hcrevne : c.reverse ≠ [] := fun hr => hcne (List.reverse_eq_nil_iff.mp hr)
  apply trimText_eq_self
  · rw [startsNonWS_append a (' ' :: c) hane]
    exact ha
  · rw [List.reverse_append, List.reverse_cons, List.append_assoc,
      startsNonWS_append c.reverse _ hcrevne]
    exact hcrev

/-- The overlap pass on a list of trimmed, long-enough, cleanly-ending
chunks: the strip is a no-op and output chunk `j + 1` is
`chunks[j][-overlap:] + " " + chunks[j+1]` verbatim. -/
theorem overlapped_block_eq (ov : Nat) (cs : List Text) (j : Nat)
    (hj : j + 1 < cs.length)
    (htrim : ∀ c ∈ cs, ∃ x, c = trimText x)
    (hch : ∀ c ∈ cs, c ≠ [] ∧ ov ≤ c.length ∧ startsNonWS (takeRightText ov c) = true)
    (hov : 0 < ov) :
    (overlapped ov cs).getD (j + 1) []
      = takeRightText ov (cs.getD j []) ++ ' ' :: cs.getD (j + 1) [] := by
  have hjlt : j < cs.length := Nat.lt_of_succ_lt hj
  have hmemj : cs.getD j [] ∈ cs := by
    rw [List.getD_eq_getElem cs [] hjlt]
    exact List.getElem_mem hjlt
  have hmemj1 : cs.getD (j + 1) [] ∈ cs := by
    rw [List.getD_eq_getElem cs [] hj]
    exact List.getElem_mem hj
  obtain ⟨_, clen, cstart⟩ := hch _ hmemj
  obtain ⟨c1ne, _, _⟩ := hch _ hmemj1
  obtain ⟨x, hx⟩ := htrim _ hmemj1
  rw [overlapped_getD_succ ov cs j hj]
  apply overlap_block_clean
  · rw [length_takeRightText ov _ clen]
    exact hov
  · exact cstart
  · exact c1ne
  · rw [hx]
    exact trimText_reverse_starts x (hx ▸ c1ne)

/-- C2 amended: with `overlap > 0` and at least two chunks, each output
chunk after the first begins with the trailing `overlap` characters of the
previous output chunk, provided every pre-overlap chunk is nonempty, has at
least `overlap` characters, and its trailing `overlap` characters start
with a non-whitespace character (otherwise the `.strip()` of the overlap
pass removes that leading whitespace and the claimed prefix equality
fails, as the counterexample shows). -/
theorem c2_overlap_amended (content : Text) (chunkSize overlap : Nat) (i : Nat)
    (hov : 0 < overlap) (hi : 0 < i)
    (hlen : i < (preChunks content chunkSize).length)
    (hch : ∀ c ∈ preChunks content chunkSize,
      c ≠ [] ∧ overlap ≤ c.length ∧ startsNonWS (takeRightText overlap c) = true) :
    ((chunk_content content chunkSize overlap).getD i []).take overlap
      = takeRightText overlap
          ((chunk_content content chunkSize overlap).getD (i - 1) []) := by
  have htrim := preChunks_mem_trim content chunkSize
  have hgt1 : 1 < (preChunks content chunkSize).length := Nat.lt_of_le_of_lt hi hlen
  have hout : chunk_content content chunkSize overlap
      = overlapped overlap (preChunks content chunkSize) := by
    unfold chunk_content
    rw [if_pos ⟨hov, hgt1⟩]
  obtain ⟨j, rfl⟩ : ∃ j, i = j + 1 := ⟨i - 1, (Nat.succ_pred_eq_of_pos hi).symm⟩
  rw [hout]
  simp only [Nat.add_sub_cancel]
  have hj1 : j + 1 < (preChunks content chunkSize).length := hlen
  rw [overlapped_block_eq overlap (preChunks content chunkSize) j hj1 htrim hch hov]
  have hmemj : (preChunks content chunkSize).getD j [] ∈ preChunks content chunkSize := by
    rw [List.getD_eq_getElem _ [] (Nat.lt_of_succ_lt hj1)]
    exact List.getElem_mem (Nat.lt_of_succ_lt hj1)
  obtain ⟨_, jlen, _⟩ := hch _ hmemj
  rw [List.take_left' (length_takeRightText overlap _ jlen)]
  cases j with
  | zero =>
    rw [overlapped_getD_zero]
  | succ k =>
    have hk1 : k + 1 < (preChunks content chunkSize).length := Nat.lt_of_succ_lt hj1
    rw [overlapped_block_eq overlap (preChunks content chunkSize) k hk1 htrim hch hov]
    have hmemk1 : (preChunks content chunkSize).getD (k + 1) []
        ∈ preChunks content chunkSize := by
      rw [List.getD_eq_getElem _ [] hk1]
      exact List.getElem_mem hk1
    obtain ⟨_, k1len, _⟩ := hch _ hmemk1
    rw [List.append_cons, takeRightText_append overlap _ _ k1len]

/-- C2 amended witness: two clean ten-character chunks with overlap 4; the
second output chunk begins with the last four characters of the first. -/
theorem c2_overlap_amended_witness :
    ((chunk_content "aaaa bbbb. cccc dddd.".toList 10 4).getD 1 []).take 4
      = takeRightText 4
          ((chunk_content "aaaa bbbb. cccc dddd.".toList 10 4).getD 0 []) :=
  c2_overlap_amended "aaaa bbbb. cccc dddd.".toList 10 4 1 (by decide) (by decide)
    (by decide) (by decide)

/-- C8 witness: two session queries stored out of timestamp order, only the
first answered; the history comes back sorted with a NULL response for the
unanswered query. -/
theorem c8_history_reconstruction_witness :
    List.Sorted entryLE (get_session_history dbQueries dbResponses "s") ∧
      (get_session_history dbQueries dbResponses "s").Perm
        ((dbQueries.filter (fun q => q.session_id == "s")).map fun q =>
          ⟨q.query_text,
            (dbResponses.find? (fun r => r.query_id == q.id)).map ResponseRow.response_text,
            q.created_at⟩) :=
  c8_history_reconstruction dbQueries dbResponses "s" (by decide)

end RAG
